import Mathlib

/-!
Verification of the terminal maze game (src/main.rs).

The Rust program is shallowly embedded below:
* `Position`, `BoardCell`, `GameState`, `Movement` mirror the source structs;
  the two fixed-size boards (`[[char; BOARD_SIZE]; BOARD_SIZE]` resp.
  `[[BoardCell; GEN_SIZE]; GEN_SIZE]`) are modelled as total functions
  `Nat → Nat → _` together with explicit bound conditions where the source
  relies on in-bounds indexing; a fallible array write (which would panic
  in Rust when out of bounds) is modelled with `Option`.
* `move_position`, `is_valid_move`, `is_win_position`, `GameState.new`,
  and `generate_maze` are direct translations of the source functions.
* The ambient random generator (`rand::thread_rng` + `gen_range`) is
  modelled by an oracle `choice : Nat → Nat`; the chosen index is
  `choice k % moves.length`, which ranges over every index the real
  generator can produce.
-/

def SYMBOL : Char := '●'

def GOAL : Char := '▓'

def BOARD_SIZE : Nat := 25

def GEN_SIZE : Nat := 13

def BORDER : Char := '░'

def WALL : Char := '░'

inductive Movement where
  | UP
  | DOWN
  | LEFT
  | RIGHT
deriving DecidableEq

@[ext]
structure Position where
  x : Nat
  y : Nat
deriving DecidableEq

structure BoardCell where
  wall_right : Bool
  wall_bottom : Bool
deriving DecidableEq

/-- The game state; `board` models the `[[char; BOARD_SIZE]; BOARD_SIZE]`
display grid as a total function (the source only ever indexes it inside
bounds, which the theorems track through explicit hypotheses). -/
@[ext]
structure GameState where
  board : Nat → Nat → Char
  position : Position
  win_position : Position
  victory : Bool

/-- Pointwise update of a board, modelling `board[y][x] = c`. -/
def setCell (b : Nat → Nat → Char) (y x : Nat) (c : Char) : Nat → Nat → Char :=
  fun y2 x2 => if y2 = y ∧ x2 = x then c else b y2 x2

/-- The candidate destination computed at the top of `move_position`:
one axis moved by 1 when the bound check (`checked_sub` resp.
`< BOARD_SIZE-1`) succeeds, otherwise the position is unchanged. -/
def candidate (action : Movement) (p : Position) : Position :=
  match action with
  | Movement.UP => if 0 < p.y then { p with y := p.y - 1 } else p
  | Movement.DOWN => if p.y < BOARD_SIZE - 1 then { p with y := p.y + 1 } else p
  | Movement.LEFT => if 0 < p.x then { p with x := p.x - 1 } else p
  | Movement.RIGHT => if p.x < BOARD_SIZE - 1 then { p with x := p.x + 1 } else p

/-- `is_valid_move`: the move is accepted iff victory has not happened and
the destination cell is not a wall. -/
def is_valid_move (s : GameState) (new_position : Position) : Prop :=
  s.victory = false ∧ s.board new_position.y new_position.x ≠ WALL

instance (s : GameState) (p : Position) : Decidable (is_valid_move s p) := by
  unfold is_valid_move; infer_instance

/-- `is_win_position`. -/
def is_win_position (s : GameState) : Prop :=
  s.position = s.win_position

instance (s : GameState) : Decidable (is_win_position s) := by
  unfold is_win_position; infer_instance

/-- The board after a successful move: the old player cell is cleared,
the player marker stamped into the destination cell. -/
def moveBoard (s : GameState) (new_pos : Position) : Nat → Nat → Char :=
  setCell (setCell s.board s.position.y s.position.x ' ') new_pos.y new_pos.x SYMBOL

/-- The successful branch of `move_position` (board writes, position
update, then the `is_win_position` check on the updated state). -/
def applyMove (s : GameState) (new_pos : Position) : GameState :=
  if is_win_position { s with board := moveBoard s new_pos, position := new_pos } then
    { s with board := moveBoard s new_pos, position := new_pos, victory := true }
  else
    { s with board := moveBoard s new_pos, position := new_pos }

/-- `move_position`: translation of the source method. -/
def move_position (s : GameState) (action : Movement) : GameState :=
  if is_valid_move s (candidate action s.position) then
    applyMove s (candidate action s.position)
  else s

/-- Spec-side destination: "moving one axis by 1 clamped within grid
bounds" (truncated `Nat` subtraction is the clamp at 0, `min` the clamp at
`BOARD_SIZE - 1`). -/
def spec_destination (action : Movement) (p : Position) : Position :=
  match action with
  | Movement.UP => { p with y := p.y - 1 }
  | Movement.DOWN => { p with y := min (p.y + 1) (BOARD_SIZE - 1) }
  | Movement.LEFT => { p with x := p.x - 1 }
  | Movement.RIGHT => { p with x := min (p.x + 1) (BOARD_SIZE - 1) }

/-- One iteration of the input loop body for a read character `c`
(src/main.rs lines 226-237): the four recognized characters apply the
corresponding move; afterwards a clone of the state is sent to the render
channel unconditionally.  Result: (state after, snapshot sent). -/
def inputStep (st : GameState) (c : Char) : GameState × Option GameState :=
  let st2 :=
    if c = 'w' then move_position st Movement.UP
    else if c = 'a' then move_position st Movement.LEFT
    else if c = 's' then move_position st Movement.DOWN
    else if c = 'd' then move_position st Movement.RIGHT
    else st
  (st2, some st2)

/-- The victory-banner part of `render` (src/main.rs lines 278-293),
parameterised by the terminal size and by the figlet conversion result
(its lines and its reported height).  Returns the list of
(row, column, text) writes emitted for the banner. -/
def bannerWrites (wd ht : Nat) (lines : List String) (height : Nat) :
    List (Nat × Nat × String) :=
  let m_w := ((lines.map String.length).max?).getD 1
  let m_h := height
  let p := if m_w > wd ∨ m_h > ht then (0, 0) else (m_w, m_h)
  let midpoint := ((wd - p.1) / 2, (ht - p.2) / 2)
  lines.enum.map (fun q => (midpoint.2 + q.1, midpoint.1, q.2))

/-- A concrete well-formed state used to instantiate theorems: player at
the origin, goal at the far corner, empty board otherwise. -/
def testState : GameState :=
  { board := fun y x =>
      if y = 0 ∧ x = 0 then SYMBOL
      else if y = BOARD_SIZE - 1 ∧ x = BOARD_SIZE - 1 then GOAL
      else ' '
    position := { x := 0, y := 0 }
    win_position := { x := BOARD_SIZE - 1, y := BOARD_SIZE - 1 }
    victory := false }

/-- The same state with the victory flag raised. -/
def testVictoryState : GameState :=
  { testState with position := { x := BOARD_SIZE - 1, y := BOARD_SIZE - 1 },
                   victory := true }

/-- Pointwise update of the generation grid modelling
`board[y][x].wall_bottom = true`. -/
def setBottom (b : Nat → Nat → BoardCell) (y x : Nat) : Nat → Nat → BoardCell :=
  fun y2 x2 => if y2 = y ∧ x2 = x then { b y x with wall_bottom := true } else b y2 x2

/-- Pointwise update of the generation grid modelling
`board[y][x].wall_right = true`. -/
def setRight (b : Nat → Nat → BoardCell) (y x : Nat) : Nat → Nat → BoardCell :=
  fun y2 x2 => if y2 = y ∧ x2 = x then { b y x with wall_right := true } else b y2 x2

/-- The mutable state of the `generate_maze` traversal loop.  The Rust
stack's top (`stack[stack.len()-1]`, popped by `stack.pop()`) is the head
of the list here; `visited` models the `HashSet` as a duplicate-free
list (`insertPos` only adds absent elements, so `visited.length` is the
set's `len()`); `step` counts the random draws, indexing the oracle. -/
structure GenState where
  board : Nat → Nat → BoardCell
  pos : Position
  visited : List Position
  stack : List Position
  popped : Bool
  step : Nat

/-- `HashSet::insert`. -/
def insertPos (v : List Position) (p : Position) : List Position :=
  if p ∈ v then v else p :: v

/-- The "Move Up" neighbor check of the loop body: an unvisited in-bounds
neighbor becomes a candidate move; a visited one (when not just
backtracked and not the stack top) gets a wall recorded on the
*neighbor's* bottom edge.  `acc` carries (moves so far, board so far). -/
def neighborUp (popped : Bool) (top : Position) (visited : List Position)
    (pos : Position) (acc : List Position × (Nat → Nat → BoardCell)) :
    List Position × (Nat → Nat → BoardCell) :=
  if 0 < pos.y then
    let mv : Position := { x := pos.x, y := pos.y - 1 }
    if mv ∉ visited then (acc.1 ++ [mv], acc.2)
    else if popped = false ∧ top ≠ mv then (acc.1, setBottom acc.2 mv.y mv.x)
    else acc
  else acc

/-- The "Move Left" neighbor check (wall on the neighbor's right edge). -/
def neighborLeft (popped : Bool) (top : Position) (visited : List Position)
    (pos : Position) (acc : List Position × (Nat → Nat → BoardCell)) :
    List Position × (Nat → Nat → BoardCell) :=
  if 0 < pos.x then
    let mv : Position := { x := pos.x - 1, y := pos.y }
    if mv ∉ visited then (acc.1 ++ [mv], acc.2)
    else if popped = false ∧ top ≠ mv then (acc.1, setRight acc.2 mv.y mv.x)
    else acc
  else acc

/-- The "Move Down" neighbor check (wall on the *current* cell's bottom
edge). -/
def neighborDown (popped : Bool) (top : Position) (visited : List Position)
    (pos : Position) (acc : List Position × (Nat → Nat → BoardCell)) :
    List Position × (Nat → Nat → BoardCell) :=
  if pos.y < GEN_SIZE - 1 then
    let mv : Position := { x := pos.x, y := pos.y + 1 }
    if mv ∉ visited then (acc.1 ++ [mv], acc.2)
    else if popped = false ∧ top ≠ mv then (acc.1, setBottom acc.2 pos.y pos.x)
    else acc
  else acc

/-- The "Move Right" neighbor check (wall on the *current* cell's right
edge). -/
def neighborRight (popped : Bool) (top : Position) (visited : List Position)
    (pos : Position) (acc : List Position × (Nat → Nat → BoardCell)) :
    List Position × (Nat → Nat → BoardCell) :=
  if pos.x < GEN_SIZE - 1 then
    let mv : Position := { x := pos.x + 1, y := pos.y }
    if mv ∉ visited then (acc.1 ++ [mv], acc.2)
    else if popped = false ∧ top ≠ mv then (acc.1, setRight acc.2 pos.y pos.x)
    else acc
  else acc

/-- The guard of the traversal's `while` loop, exactly as written in the
source: `stack.len() > 0 && visited.len() < BOARD_SIZE.pow(2)`. -/
def genGuard (s : GenState) : Prop :=
  0 < s.stack.length ∧ s.visited.length < BOARD_SIZE ^ 2

instance (s : GenState) : Decidable (genGuard s) := by
  unfold genGuard; infer_instance

/-- The (candidate moves, updated board) pair produced by the four
neighbor checks of one loop iteration, in source order (Up, Left, Down,
Right), starting from no moves and the current board; the visited set
already contains the current position (`visited.insert(pos)` happens at
the top of the iteration). -/
def genAcc (s : GenState) : List Position × (Nat → Nat → BoardCell) :=
  neighborRight s.popped (s.stack.headD { x := 0, y := 0 })
    (insertPos s.visited s.pos) s.pos
    (neighborDown s.popped (s.stack.headD { x := 0, y := 0 })
      (insertPos s.visited s.pos) s.pos
      (neighborLeft s.popped (s.stack.headD { x := 0, y := 0 })
        (insertPos s.visited s.pos) s.pos
        (neighborUp s.popped (s.stack.headD { x := 0, y := 0 })
          (insertPos s.visited s.pos) s.pos ([], s.board))))

/-- One iteration of the traversal loop body (run only when `genGuard`
holds).  Marks the position visited, performs the four neighbor checks,
then either moves to an oracle-chosen candidate (pushing the current
position) or backtracks by popping the stack.  The `[]` branch of the pop
is unreachable under the guard (the source's `stack.pop().unwrap()`
cannot panic there). -/
def genBody (choice : Nat → Nat) (s : GenState) : GenState :=
  if h : 0 < (genAcc s).1.length then
    { board := (genAcc s).2,
      pos := (genAcc s).1.get
        ⟨choice s.step % (genAcc s).1.length, Nat.mod_lt _ h⟩,
      visited := insertPos s.visited s.pos, stack := s.pos :: s.stack,
      popped := false, step := s.step + 1 }
  else
    match s.stack with
    | [] =>
      { s with
        visited := insertPos s.visited s.pos
        board := (genAcc s).2 }
    | t :: rest =>
      { board := (genAcc s).2, pos := t,
        visited := insertPos s.visited s.pos, stack := rest,
        popped := true, step := s.step }

/-- The traversal loop, fuel-indexed.  `GEN_FUEL` exceeds the loop's
measure (2*168+1 = 337 at the initial state, strictly decreasing each
iteration), so the loop is finished at the result — see
`runGen_guard_false`. -/
def genLoop (choice : Nat → Nat) : Nat → GenState → GenState
  | 0, s => s
  | n + 1, s => if genGuard s then genLoop choice n (genBody choice s) else s

/-- The loop's starting state: all-open board, position at the grid
center, empty visited set, the start position on the stack. -/
def initGenState : GenState :=
  { board := fun _ _ => { wall_right := false, wall_bottom := false },
    pos := { x := GEN_SIZE / 2, y := GEN_SIZE / 2 },
    visited := [],
    stack := [{ x := GEN_SIZE / 2, y := GEN_SIZE / 2 }],
    popped := false, step := 0 }

def GEN_FUEL : Nat := 400

/-- The completed traversal for a given oracle. -/
def runGen (choice : Nat → Nat) : GenState :=
  genLoop choice GEN_FUEL initGenState

/-- Checked write into the display grid: `render_board[y][x] = c`
fails (Rust: panics) when the index is out of bounds. -/
def writeCell (b : Nat → Nat → Char) (y x : Nat) (c : Char) :
    Option (Nat → Nat → Char) :=
  if y < BOARD_SIZE ∧ x < BOARD_SIZE then some (setCell b y x c) else none

/-- The per-cell expansion step of `generate_maze` ("Convert Board into
render board"), for logical cell (y, x) with `ry = 2*y`, `rx = 2*x`. -/
def emitCell (grid : Nat → Nat → BoardCell) (y x : Nat)
    (b : Nat → Nat → Char) : Option (Nat → Nat → Char) :=
  let c := grid y x
  let ry := 2 * y
  let rx := 2 * x
  if y < GEN_SIZE - 1 then
    if x < GEN_SIZE - 1 then
      (if c.wall_bottom then writeCell b (ry + 1) rx WALL else some b).bind
        (fun b1 =>
          (if c.wall_right then writeCell b1 ry (rx + 1) WALL
           else some b1).bind
            (fun b2 => writeCell b2 (ry + 1) (rx + 1) WALL))
    else if c.wall_bottom then writeCell b (ry + 1) rx WALL else some b
  else if c.wall_right then writeCell b ry (rx + 1) WALL else some b

/-- The logical cells in the row-major order of the two nested `for`
loops. -/
def cellList : List (Nat × Nat) :=
  (List.range GEN_SIZE).flatMap (fun y => (List.range GEN_SIZE).map (fun x => (y, x)))

/-- Folding the per-cell expansion over a list of logical cells. -/
def expandCells (grid : Nat → Nat → BoardCell) :
    List (Nat × Nat) → (Nat → Nat → Char) → Option (Nat → Nat → Char)
  | [], b => some b
  | q :: rest, b => (emitCell grid q.1 q.2 b).bind (expandCells grid rest)

/-- The full expansion of the logical grid into the display grid,
starting from the all-empty render board. -/
def expandBoard (grid : Nat → Nat → BoardCell) : Option (Nat → Nat → Char) :=
  expandCells grid cellList (fun _ _ => ' ')

/-- `generate_maze`: traversal followed by expansion. -/
def generate_maze (choice : Nat → Nat) : Option (Nat → Nat → Char) :=
  expandBoard (runGen choice).board

/-- `GameState::new`: a fresh maze with the player marker stamped at the
origin and the goal marker at the opposite corner. -/
def GameState.new (choice : Nat → Nat) : Option GameState :=
  (generate_maze choice).map (fun maze =>
    { board := setCell (setCell maze 0 0 SYMBOL)
        (BOARD_SIZE - 1) (BOARD_SIZE - 1) GOAL,
      position := { x := 0, y := 0 },
      win_position := { x := BOARD_SIZE - 1, y := BOARD_SIZE - 1 },
      victory := false })

/-- A sequence of move calls. -/
def applyMoves (s : GameState) (ms : List Movement) : GameState :=
  ms.foldl move_position s

/-- The display cells written as walls by the expansion of logical cell
(y, x) — the same case structure as `emitCell`, as a plain list. -/
def targets (grid : Nat → Nat → BoardCell) (y x : Nat) : List (Nat × Nat) :=
  if y < GEN_SIZE - 1 then
    if x < GEN_SIZE - 1 then
      (if (grid y x).wall_bottom then [(2 * y + 1, 2 * x)] else []) ++
        ((if (grid y x).wall_right then [(2 * y, 2 * x + 1)] else []) ++
          [(2 * y + 1, 2 * x + 1)])
    else if (grid y x).wall_bottom then [(2 * y + 1, 2 * x)] else []
  else if (grid y x).wall_right then [(2 * y, 2 * x + 1)] else []

/-- Sequentially stamp wall characters at a list of display cells. -/
def applyWall (b : Nat → Nat → Char) (ts : List (Nat × Nat)) :
    Nat → Nat → Char :=
  ts.foldl (fun bb t => setCell bb t.1 t.2 WALL) b

/-- The spec-side description of the expansion (spec section 4.1,
"Expansion to display grid"): logical cell (gx, gy) sits at display cell
(2gx, 2gy); odd/odd display cells are unconditional pillars; the cell
between two vertically adjacent logical cells is a wall iff the upper
cell's `wall_bottom` flag is set; between two horizontally adjacent cells
iff the left cell's `wall_right` flag is set; all other display cells are
empty. -/
def specCell (grid : Nat → Nat → BoardCell) (r c : Nat) : Char :=
  if r % 2 = 1 ∧ c % 2 = 1 then WALL
  else if r % 2 = 1 then
    (if (grid (r / 2) (c / 2)).wall_bottom then WALL else ' ')
  else if c % 2 = 1 then
    (if (grid (r / 2) (c / 2)).wall_right then WALL else ' ')
  else ' '

/-- A position lies on the generation grid. -/
def posOk (p : Position) : Prop :=
  p.x < GEN_SIZE ∧ p.y < GEN_SIZE

instance (p : Position) : Decidable (posOk p) := by
  unfold posOk; infer_instance

/-- No cell of the last logical column has `wall_right`, no cell of the
last logical row has `wall_bottom`. -/
def FlagsOk (b : Nat → Nat → BoardCell) : Prop :=
  (∀ y, (b y (GEN_SIZE - 1)).wall_right = false) ∧
  (∀ x, (b (GEN_SIZE - 1) x).wall_bottom = false)

/-- Invariant of the traversal loop: the position and every stacked
position lie on the grid, and the boundary flags are clear. -/
def GenInv (s : GenState) : Prop :=
  posOk s.pos ∧ (∀ q ∈ s.stack, posOk q) ∧ FlagsOk s.board

/-- The (y, x) index pairs of the generation grid as a `Finset`. -/
def toPos (q : Nat × Nat) : Position :=
  { x := q.2, y := q.1 }

/-- Grid cells not yet visited and distinct from the current position:
the potential of the loop's termination measure. -/
def uvSet (s : GenState) : Finset (Nat × Nat) :=
  (Finset.range GEN_SIZE ×ˢ Finset.range GEN_SIZE).filter
    (fun q => toPos q ∉ s.visited ∧ toPos q ≠ s.pos)

/-- Termination measure of the traversal loop. -/
def measureGen (s : GenState) : Nat :=
  2 * (uvSet s).card + s.stack.length

/-- Every position of the generation grid, listed. -/
def allCellsList : List Position :=
  (List.range GEN_SIZE).flatMap
    (fun y => (List.range GEN_SIZE).map (fun x => ({ x := x, y := y } : Position)))

/-- A traversal state in which every logical cell has been visited while
the stack is still non-empty. -/
def fullVisitState : GenState :=
  { board := fun _ _ => { wall_right := false, wall_bottom := false },
    pos := { x := GEN_SIZE / 2, y := GEN_SIZE / 2 },
    visited := allCellsList,
    stack := [{ x := GEN_SIZE / 2, y := GEN_SIZE / 2 }],
    popped := true, step := 0 }

/-- Number of display-grid cells holding the player marker. -/
def symbolCount (b : Nat → Nat → Char) : Nat :=
  ((Finset.range BOARD_SIZE ×ˢ Finset.range BOARD_SIZE).filter
    (fun q => b q.1 q.2 = SYMBOL)).card

/-- Number of display-grid cells holding the goal marker. -/
def goalCount (b : Nat → Nat → Char) : Nat :=
  ((Finset.range BOARD_SIZE ×ˢ Finset.range BOARD_SIZE).filter
    (fun q => b q.1 q.2 = GOAL)).card

/-- An all-open logical grid, used to instantiate theorems. -/
def testGrid : Nat → Nat → BoardCell :=
  fun _ _ => { wall_right := false, wall_bottom := false }

/-- The full inductive state invariant: positions in bounds, the victory
flag tracking the goal, the player marker exactly at the stored position,
the goal marker exactly at the goal position while distinct from the
player. -/
def FullInv (s : GameState) : Prop :=
  s.position.x < BOARD_SIZE ∧ s.position.y < BOARD_SIZE ∧
  s.win_position.x < BOARD_SIZE ∧ s.win_position.y < BOARD_SIZE ∧
  (s.victory = true ↔ s.position = s.win_position) ∧
  (∀ y, y < BOARD_SIZE → ∀ x, x < BOARD_SIZE →
    ((s.board y x = SYMBOL ↔ (y = s.position.y ∧ x = s.position.x)) ∧
     (s.board y x = GOAL ↔
       ((y = s.win_position.y ∧ x = s.win_position.x) ∧
         s.position ≠ s.win_position))))

section MoveLemmas

lemma move_position_of_not_valid (s : GameState) (a : Movement)
    (h : ¬ is_valid_move s (candidate a s.position)) :
    move_position s a = s := by
  unfold move_position
  simp only [if_neg h]

lemma move_position_of_valid (s : GameState) (a : Movement)
    (h : is_valid_move s (candidate a s.position)) :
    move_position s a = applyMove s (candidate a s.position) := by
  unfold move_position
  simp only [if_pos h]

lemma is_win_position_update (s : GameState) (b : Nat → Nat → Char)
    (np : Position) :
    is_win_position { s with board := b, position := np } ↔
      np = s.win_position :=
  Iff.rfl

lemma applyMove_position (s : GameState) (np : Position) :
    (applyMove s np).position = np := by
  unfold applyMove
  split <;> rfl

lemma applyMove_win_position (s : GameState) (np : Position) :
    (applyMove s np).win_position = s.win_position := by
  unfold applyMove
  split <;> rfl

lemma applyMove_board (s : GameState) (np : Position) :
    (applyMove s np).board = moveBoard s np := by
  unfold applyMove
  split <;> rfl

lemma applyMove_victory (s : GameState) (np : Position) :
    (applyMove s np).victory = true ↔
      (np = s.win_position ∨ s.victory = true) := by
  unfold applyMove
  by_cases h : is_win_position { s with board := moveBoard s np, position := np }
  · rw [if_pos h]
    rw [is_win_position_update] at h
    simp [h]
  · rw [if_neg h]
    rw [is_win_position_update] at h
    simp [h]

lemma candidate_eq_spec_destination (a : Movement) (p : Position)
    (hx : p.x < BOARD_SIZE) (hy : p.y < BOARD_SIZE) :
    candidate a p = spec_destination a p := by
  have hB : BOARD_SIZE = 25 := rfl
  cases a
  case UP =>
    by_cases h : 0 < p.y
    · simp [candidate, spec_destination, h]
    · have h0 : p.y = 0 := by omega
      simp only [candidate, spec_destination, h, if_neg h, h0]
      exact Position.ext rfl h0
  case DOWN =>
    by_cases h : p.y < BOARD_SIZE - 1
    · have hm : min (p.y + 1) (BOARD_SIZE - 1) = p.y + 1 := by omega
      simp [candidate, spec_destination, h, hm]
    · have hm : min (p.y + 1) (BOARD_SIZE - 1) = p.y := by omega
      simp [candidate, spec_destination, h, hm]
  case LEFT =>
    by_cases h : 0 < p.x
    · simp [candidate, spec_destination, h]
    · have h0 : p.x = 0 := by omega
      simp only [candidate, spec_destination, h, if_neg h, h0]
      exact Position.ext h0 rfl
  case RIGHT =>
    by_cases h : p.x < BOARD_SIZE - 1
    · have hm : min (p.x + 1) (BOARD_SIZE - 1) = p.x + 1 := by omega
      simp [candidate, spec_destination, h, hm]
    · have hm : min (p.x + 1) (BOARD_SIZE - 1) = p.x := by omega
      simp [candidate, spec_destination, h, hm]

lemma setCell_same (b : Nat → Nat → Char) (y x : Nat) (c : Char) :
    setCell b y x c y x = c := by
  simp [setCell]

lemma setCell_other (b : Nat → Nat → Char) (y x : Nat) (c : Char)
    (y2 x2 : Nat) (h : ¬ (y2 = y ∧ x2 = x)) :
    setCell b y x c y2 x2 = b y2 x2 := by
  simp [setCell, h]

lemma moveBoard_self (s : GameState)
    (hsym : s.board s.position.y s.position.x = SYMBOL) :
    moveBoard s s.position = s.board := by
  funext y2 x2
  unfold moveBoard
  by_cases hc : y2 = s.position.y ∧ x2 = s.position.x
  · simp only [setCell, if_pos hc, hc.1, hc.2]
    exact hsym.symm
  · simp only [setCell, if_neg hc]

end MoveLemmas

/-- C1: For every in-bounds game state and direction, `move_position`
computes a candidate destination by moving one axis by 1 clamped within
grid bounds; it applies the move exactly when victory is false and the
destination is not a wall; on application it clears the old cell, writes
the player marker into the destination cell, updates the stored position,
and sets victory to true iff the new position equals the goal position. -/
theorem move_position_spec (s : GameState) (a : Movement)
    (hx : s.position.x < BOARD_SIZE) (hy : s.position.y < BOARD_SIZE) :
    candidate a s.position = spec_destination a s.position ∧
    ((s.victory = true ∨
        s.board (candidate a s.position).y (candidate a s.position).x = WALL) →
      move_position s a = s) ∧
    (s.victory = false →
      s.board (candidate a s.position).y (candidate a s.position).x ≠ WALL →
      ((move_position s a).position = candidate a s.position ∧
       (move_position s a).board (candidate a s.position).y
         (candidate a s.position).x = SYMBOL ∧
       (candidate a s.position ≠ s.position →
         (move_position s a).board s.position.y s.position.x = ' ') ∧
       ((move_position s a).victory = true ↔
         candidate a s.position = s.win_position))) := by
  refine ⟨candidate_eq_spec_destination a s.position hx hy, ?_, ?_⟩
  · rintro (hv | hw)
    · apply move_position_of_not_valid
      intro hvalid
      rw [hvalid.1] at hv
      simp at hv
    · apply move_position_of_not_valid
      intro hvalid
      exact hvalid.2 hw
  · intro hv hw
    have hvalid : is_valid_move s (candidate a s.position) := ⟨hv, hw⟩
    rw [move_position_of_valid s a hvalid]
    set np := candidate a s.position with hnp
    refine ⟨applyMove_position s np, ?_, ?_, ?_⟩
    · rw [applyMove_board]
      unfold moveBoard
      exact setCell_same _ _ _ _
    · intro hne
      rw [applyMove_board]
      unfold moveBoard
      have hcell : ¬ (s.position.y = np.y ∧ s.position.x = np.x) := by
        intro hc
        apply hne
        ext <;> omega
      rw [setCell_other _ _ _ _ _ _ hcell, setCell_same]
    · rw [applyMove_victory]
      simp [hv]

/-- Witness instantiating `move_position_spec` at a concrete state. -/
theorem move_position_spec_witness :
    testState.position.x < BOARD_SIZE ∧ testState.position.y < BOARD_SIZE ∧
    candidate Movement.RIGHT testState.position =
      spec_destination Movement.RIGHT testState.position :=
  ⟨by decide, by decide,
    (move_position_spec testState Movement.RIGHT (by decide) (by decide)).1⟩

/-- C2: a move that fails — because victory is already true, or the
boundary clamp produced no change, or the destination is a wall — leaves
the whole state unchanged.  The hypotheses are the documented state
invariants (the player marker sits at the stored position, and the
victory flag is false only while the player is off the goal), which hold
in every state the program constructs. -/
theorem move_failure_noop (s : GameState) (a : Movement)
    (hsym : s.board s.position.y s.position.x = SYMBOL)
    (hwin : s.victory = false → s.position ≠ s.win_position) :
    (s.victory = true ∨ candidate a s.position = s.position ∨
      s.board (candidate a s.position).y (candidate a s.position).x = WALL) →
    move_position s a = s := by
  intro h
  by_cases hvalid : is_valid_move s (candidate a s.position)
  · rcases h with hv | hcl | hw
    · rw [hvalid.1] at hv
      simp at hv
    · rw [move_position_of_valid s a hvalid, hcl]
      have hp : s.position ≠ s.win_position := hwin hvalid.1
      unfold applyMove
      rw [if_neg (by rw [is_win_position_update]; exact hp)]
      rw [moveBoard_self s hsym]
    · exact absurd hw hvalid.2
  · exact move_position_of_not_valid s a hvalid

/-- Witness for `move_failure_noop`: moving up at row 0 changes nothing. -/
theorem move_failure_noop_witness :
    testState.board testState.position.y testState.position.x = SYMBOL ∧
    (candidate Movement.UP testState.position = testState.position) ∧
    move_position testState Movement.UP = testState :=
  ⟨by decide, by decide,
    move_failure_noop testState Movement.UP (by decide)
      (fun _ => by decide)
      (Or.inr (Or.inl (by decide)))⟩

/-- C3: the two-state machine.  `won` (victory = true) is terminal: a
move leaves the state untouched; and the transition to `won` happens
exactly when a valid move lands on the goal position. -/
theorem victory_terminal_transition (s : GameState) (a : Movement) :
    (s.victory = true → move_position s a = s) ∧
    ((move_position s a).victory = true ↔
      (s.victory = true ∨
        (is_valid_move s (candidate a s.position) ∧
          candidate a s.position = s.win_position))) := by
  constructor
  · intro hv
    apply move_position_of_not_valid
    intro hvalid
    rw [hvalid.1] at hv
    simp at hv
  · by_cases hvalid : is_valid_move s (candidate a s.position)
    · rw [move_position_of_valid s a hvalid, applyMove_victory]
      constructor
      · rintro (hwin | hv)
        · exact Or.inr ⟨hvalid, hwin⟩
        · exact Or.inl hv
      · rintro (hv | ⟨-, hwin⟩)
        · exact Or.inr hv
        · exact Or.inl hwin
    · rw [move_position_of_not_valid s a hvalid]
      constructor
      · intro hv
        exact Or.inl hv
      · rintro (hv | ⟨hva, -⟩)
        · exact hv
        · exact absurd hva hvalid

/-- Witness for `victory_terminal_transition`: once won, a move is a
no-op. -/
theorem victory_terminal_transition_witness :
    move_position testVictoryState Movement.UP = testVictoryState :=
  (victory_terminal_transition testVictoryState Movement.UP).1 (by decide)

/-- C7 counterexample: the character `x` is unrecognized (not one of
w/a/s/d), yet the input loop still sends a snapshot into the channel —
the claim says no snapshot is sent. -/
theorem input_unrecognized_still_sends :
    ('x' ≠ 'w' ∧ 'x' ≠ 'a' ∧ 'x' ≠ 's' ∧ 'x' ≠ 'd') ∧
    (inputStep testState 'x').2 ≠ none := by
  refine ⟨by decide, ?_⟩
  simp [inputStep]

/-- C7 (amended): each of w/a/s/d applies the corresponding move, an
unrecognized character applies no move; in every case a snapshot of the
(possibly unchanged) state is sent into the channel. -/
theorem input_step_spec (st : GameState) (c : Char) :
    inputStep st 'w' = (move_position st Movement.UP,
      some (move_position st Movement.UP)) ∧
    inputStep st 'a' = (move_position st Movement.LEFT,
      some (move_position st Movement.LEFT)) ∧
    inputStep st 's' = (move_position st Movement.DOWN,
      some (move_position st Movement.DOWN)) ∧
    inputStep st 'd' = (move_position st Movement.RIGHT,
      some (move_position st Movement.RIGHT)) ∧
    (c ≠ 'w' → c ≠ 'a' → c ≠ 's' → c ≠ 'd' →
      inputStep st c = (st, some st)) := by
  refine ⟨by simp [inputStep], by simp [inputStep], by simp [inputStep],
    by simp [inputStep], ?_⟩
  intro h1 h2 h3 h4
  simp [inputStep, h1, h2, h3, h4]

/-- Witness for `input_step_spec` at the concrete character `x`. -/
theorem input_step_spec_witness :
    inputStep testState 'x' = (testState, some testState) :=
  (input_step_spec testState 'x').2.2.2.2 (by decide) (by decide)
    (by decide) (by decide)

/-- C9 counterexample: with terminal size 5×3 and a 10-character banner
line, the banner is wider than the terminal, yet a banner line is still
written (at the fallback placement) — the claim says the overlay is
skipped entirely. -/
theorem banner_oversize_not_skipped :
    ((["0123456789"].map String.length).max?.getD 1 > 5) ∧
    bannerWrites 5 3 ["0123456789"] 1 = [(1, 2, "0123456789")] := by
  constructor
  · decide
  · rfl

/-- C9 (amended): when the banner is wider or taller than the terminal,
its measured size is replaced by zero, so every banner line is still
written, at column `wd / 2` and at rows `ht / 2 + i`. -/
theorem banner_oversize_fallback (wd ht height : Nat) (lines : List String)
    (hover : ((lines.map String.length).max?).getD 1 > wd ∨ height > ht) :
    bannerWrites wd ht lines height =
      lines.enum.map (fun q => (ht / 2 + q.1, wd / 2, q.2)) := by
  unfold bannerWrites
  simp only [if_pos hover, Nat.sub_zero]

/-- Witness for `banner_oversize_fallback`. -/
theorem banner_oversize_fallback_witness :
    (((["0123456789"].map String.length).max?).getD 1 > 5 ∨ (1 : Nat) > 3) ∧
    bannerWrites 5 3 ["0123456789"] 1 =
      (["0123456789"].enum.map (fun q => (3 / 2 + q.1, 5 / 2, q.2))) :=
  ⟨Or.inl (by decide),
    banner_oversize_fallback 5 3 1 ["0123456789"] (Or.inl (by decide))⟩

section ExpansionLemmas

lemma applyWall_lookup (ts : List (Nat × Nat)) (b : Nat → Nat → Char)
    (r c : Nat) :
    applyWall b ts r c = if (r, c) ∈ ts then WALL else b r c := by
  induction ts generalizing b with
  | nil => simp [applyWall]
  | cons t rest ih =>
    obtain ⟨ty, tx⟩ := t
    show applyWall (setCell b ty tx WALL) rest r c = _
    rw [ih]
    simp only [List.mem_cons, Prod.mk.injEq, setCell]
    by_cases hm : (r, c) ∈ rest
    · simp [hm]
    · by_cases hrc : r = ty ∧ c = tx
      · simp [hm, hrc]
      · simp [hm, hrc]

lemma emitCell_eq_applyWall (grid : Nat → Nat → BoardCell) (y x : Nat)
    (b : Nat → Nat → Char) (hy : y < GEN_SIZE) (hx : x < GEN_SIZE)
    (hsafe : y = GEN_SIZE - 1 → x = GEN_SIZE - 1 →
      (grid y x).wall_right = false) :
    emitCell grid y x b = some (applyWall b (targets grid y x)) := by
  have hG : GEN_SIZE = 13 := rfl
  have hB : BOARD_SIZE = 25 := rfl
  unfold emitCell targets
  by_cases h1 : y < GEN_SIZE - 1
  · by_cases h2 : x < GEN_SIZE - 1
    · have w1 : 2 * y + 1 < BOARD_SIZE ∧ 2 * x < BOARD_SIZE := by omega
      have w2 : 2 * y < BOARD_SIZE ∧ 2 * x + 1 < BOARD_SIZE := by omega
      have w3 : 2 * y + 1 < BOARD_SIZE ∧ 2 * x + 1 < BOARD_SIZE := by omega
      cases hb : (grid y x).wall_bottom <;>
        cases hr : (grid y x).wall_right <;>
          simp [h1, h2, hb, hr, writeCell, w1, w2, w3, applyWall]
    · have w1 : 2 * y + 1 < BOARD_SIZE ∧ 2 * x < BOARD_SIZE := by omega
      cases hb : (grid y x).wall_bottom <;>
        simp [h1, h2, hb, writeCell, w1, applyWall]
  · have hy12 : y = GEN_SIZE - 1 := by omega
    cases hr : (grid y x).wall_right
    · simp [h1, hr, applyWall]
    · have hx12 : x ≠ GEN_SIZE - 1 := by
        intro hx12
        rw [hsafe hy12 hx12] at hr
        simp at hr
      have w2 : 2 * y < BOARD_SIZE ∧ 2 * x + 1 < BOARD_SIZE := by omega
      simp [h1, hr, writeCell, w2, applyWall]

lemma expandCells_eq_applyWall (grid : Nat → Nat → BoardCell)
    (L : List (Nat × Nat))
    (hL : ∀ q ∈ L, q.1 < GEN_SIZE ∧ q.2 < GEN_SIZE ∧
      (q.1 = GEN_SIZE - 1 → q.2 = GEN_SIZE - 1 →
        (grid q.1 q.2).wall_right = false)) :
    ∀ b, expandCells grid L b = some (applyWall b (L.flatMap (fun q => targets grid q.1 q.2))) := by
  induction L with
  | nil =>
    intro b
    simp [expandCells, applyWall]
  | cons q rest ih =>
    intro b
    have hq := hL q (List.mem_cons_self q rest)
    show (emitCell grid q.1 q.2 b).bind (expandCells grid rest) = _
    rw [emitCell_eq_applyWall grid q.1 q.2 b hq.1 hq.2.1 hq.2.2,
      Option.some_bind,
      ih (fun p hp => hL p (List.mem_cons_of_mem q hp))]
    simp [applyWall, List.foldl_append]

lemma mem_cellList (y x : Nat) :
    (y, x) ∈ cellList ↔ y < GEN_SIZE ∧ x < GEN_SIZE := by
  simp [cellList, List.mem_flatMap, List.mem_map, List.mem_range]

lemma mem_targets (grid : Nat → Nat → BoardCell) (y x r c : Nat) :
    (r, c) ∈ targets grid y x ↔
      ((r = 2 * y + 1 ∧ c = 2 * x + 1 ∧ y < GEN_SIZE - 1 ∧ x < GEN_SIZE - 1) ∨
       (r = 2 * y + 1 ∧ c = 2 * x ∧ y < GEN_SIZE - 1 ∧
         (grid y x).wall_bottom = true) ∨
       (r = 2 * y ∧ c = 2 * x + 1 ∧ (y < GEN_SIZE - 1 → x < GEN_SIZE - 1) ∧
         (grid y x).wall_right = true)) := by
  unfold targets
  by_cases h1 : y < GEN_SIZE - 1 <;> by_cases h2 : x < GEN_SIZE - 1 <;>
    cases hb : (grid y x).wall_bottom <;> cases hr : (grid y x).wall_right <;>
      simp [h1, h2, hb, hr, Prod.mk.injEq] <;> omega

lemma mem_flat_targets (grid : Nat → Nat → BoardCell) (r c : Nat)
    (hr : r < BOARD_SIZE) (hc : c < BOARD_SIZE) :
    ((r, c) ∈ cellList.flatMap (fun q => targets grid q.1 q.2) ↔
      ((r % 2 = 1 ∧ c % 2 = 1) ∨
       (r % 2 = 1 ∧ c % 2 = 0 ∧ (grid (r / 2) (c / 2)).wall_bottom = true) ∨
       (r % 2 = 0 ∧ c % 2 = 1 ∧ (grid (r / 2) (c / 2)).wall_right = true))) := by
  have hG : GEN_SIZE = 13 := rfl
  have hB : BOARD_SIZE = 25 := rfl
  rw [List.mem_flatMap]
  constructor
  · rintro ⟨⟨y, x⟩, hq, hmem⟩
    rw [mem_cellList] at hq
    rw [mem_targets] at hmem
    rcases hmem with ⟨h3, h4, h5, h6⟩ | ⟨h3, h4, h5, h6⟩ | ⟨h3, h4, h5, h6⟩
    · refine Or.inl ⟨by omega, by omega⟩
    · refine Or.inr (Or.inl ⟨by omega, by omega, ?_⟩)
      have hyy : r / 2 = y := by omega
      have hxx : c / 2 = x := by omega
      rw [hyy, hxx]
      exact h6
    · refine Or.inr (Or.inr ⟨by omega, by omega, ?_⟩)
      have hyy : r / 2 = y := by omega
      have hxx : c / 2 = x := by omega
      rw [hyy, hxx]
      exact h6
  · intro hspec
    refine ⟨(r / 2, c / 2), ?_, ?_⟩
    · rw [mem_cellList]
      constructor <;> omega
    · rw [mem_targets]
      rcases hspec with ⟨h3, h4⟩ | ⟨h3, h4, h5⟩ | ⟨h3, h4, h5⟩
      · exact Or.inl ⟨by omega, by omega, by omega, by omega⟩
      · exact Or.inr (Or.inl ⟨by omega, by omega, by omega, h5⟩)
      · exact Or.inr (Or.inr ⟨by omega, by omega, by omega, h5⟩)

lemma expandBoard_char (grid : Nat → Nat → BoardCell)
    (h : (grid (GEN_SIZE - 1) (GEN_SIZE - 1)).wall_right = false) :
    ∃ rb, expandBoard grid = some rb ∧
      ∀ r, r < BOARD_SIZE → ∀ c, c < BOARD_SIZE →
        rb r c = specCell grid r c := by
  have hsafe : ∀ q ∈ cellList, q.1 < GEN_SIZE ∧ q.2 < GEN_SIZE ∧
      (q.1 = GEN_SIZE - 1 → q.2 = GEN_SIZE - 1 →
        (grid q.1 q.2).wall_right = false) := by
    rintro ⟨y, x⟩ hq
    rw [mem_cellList] at hq
    refine ⟨hq.1, hq.2, ?_⟩
    rintro rfl rfl
    exact h
  refine ⟨applyWall (fun _ _ => ' ') (cellList.flatMap (fun q => targets grid q.1 q.2)), ?_, ?_⟩
  · exact expandCells_eq_applyWall grid cellList hsafe _
  · intro r hrB c hcB
    rw [applyWall_lookup]
    simp only [mem_flat_targets grid r c hrB hcB]
    unfold specCell
    have hr2 : r % 2 = 0 ∨ r % 2 = 1 := by omega
    have hc2 : c % 2 = 0 ∨ c % 2 = 1 := by omega
    rcases hr2 with hr2 | hr2 <;> rcases hc2 with hc2 | hc2 <;>
      simp [hr2, hc2]

end ExpansionLemmas

/-- C6: for every logical grid (with the corner condition that makes the
last write well-defined — guaranteed by generation, see
`generate_flags_safe`), the expansion succeeds and produces exactly the
spec-described display grid: odd/odd cells are unconditional pillar
walls, odd-row/even-column cells are walls iff the upper logical cell's
`wall_bottom` is set, even-row/odd-column cells are walls iff the left
logical cell's `wall_right` is set, and every other display cell is
empty. -/
theorem expand_spec (grid : Nat → Nat → BoardCell)
    (h : (grid (GEN_SIZE - 1) (GEN_SIZE - 1)).wall_right = false) :
    ∃ rb, expandBoard grid = some rb ∧
      ∀ r, r < BOARD_SIZE → ∀ c, c < BOARD_SIZE →
        rb r c = specCell grid r c :=
  expandBoard_char grid h

/-- Witness instantiating `expand_spec` at the all-open grid. -/
theorem expand_spec_witness :
    (testGrid (GEN_SIZE - 1) (GEN_SIZE - 1)).wall_right = false ∧
    ∃ rb, expandBoard testGrid = some rb ∧
      ∀ r, r < BOARD_SIZE → ∀ c, c < BOARD_SIZE →
        rb r c = specCell testGrid r c :=
  ⟨rfl, expand_spec testGrid rfl⟩

section GenerationLemmas

lemma flagsOk_setBottom (b : Nat → Nat → BoardCell) (y x : Nat)
    (h : FlagsOk b) (hy : y ≠ GEN_SIZE - 1) : FlagsOk (setBottom b y x) := by
  constructor
  · intro y2
    unfold setBottom
    by_cases hc : y2 = y ∧ GEN_SIZE - 1 = x
    · simp only [if_pos hc]
      show (b y x).wall_right = false
      rw [← hc.1, ← hc.2]
      exact h.1 y2
    · simp only [if_neg hc]
      exact h.1 y2
  · intro x2
    unfold setBottom
    by_cases hc : GEN_SIZE - 1 = y ∧ x2 = x
    · exact absurd hc.1.symm hy
    · simp only [if_neg hc]
      exact h.2 x2

lemma flagsOk_setRight (b : Nat → Nat → BoardCell) (y x : Nat)
    (h : FlagsOk b) (hx : x ≠ GEN_SIZE - 1) : FlagsOk (setRight b y x) := by
  constructor
  · intro y2
    unfold setRight
    by_cases hc : y2 = y ∧ GEN_SIZE - 1 = x
    · exact absurd hc.2.symm hx
    · simp only [if_neg hc]
      exact h.1 y2
  · intro x2
    unfold setRight
    by_cases hc : GEN_SIZE - 1 = y ∧ x2 = x
    · simp only [if_pos hc]
      show (b y x).wall_bottom = false
      rw [← hc.1, ← hc.2]
      exact h.2 x2
    · simp only [if_neg hc]
      exact h.2 x2

lemma neighborUp_spec (popped : Bool) (top : Position)
    (visited : List Position) (pos : Position)
    (acc : List Position × (Nat → Nat → BoardCell))
    (hpos : posOk pos) (hb : FlagsOk acc.2) :
    FlagsOk (neighborUp popped top visited pos acc).2 ∧
    ∀ q ∈ (neighborUp popped top visited pos acc).1,
      q ∈ acc.1 ∨ (posOk q ∧ q ∉ visited) := by
  have hG : GEN_SIZE = 13 := rfl
  obtain ⟨hpx, hpy⟩ := hpos
  unfold neighborUp
  by_cases h1 : 0 < pos.y
  · simp only [if_pos h1]
    by_cases h2 : ({ x := pos.x, y := pos.y - 1 } : Position) ∉ visited
    · simp only [if_pos h2]
      refine ⟨hb, ?_⟩
      intro q hq
      rcases List.mem_append.mp hq with hq | hq
      · exact Or.inl hq
      · rw [List.mem_singleton] at hq
        subst hq
        exact Or.inr ⟨⟨hpx, by simp; omega⟩, h2⟩
    · simp only [if_neg h2]
      by_cases h3 : popped = false ∧ top ≠ ({ x := pos.x, y := pos.y - 1 } : Position)
      · simp only [if_pos h3]
        refine ⟨?_, fun q hq => Or.inl hq⟩
        exact flagsOk_setBottom acc.2 _ _ hb (by simp; omega)
      · simp only [if_neg h3]
        exact ⟨hb, fun q hq => Or.inl hq⟩
  · simp only [if_neg h1]
    exact ⟨hb, fun q hq => Or.inl hq⟩

lemma neighborLeft_spec (popped : Bool) (top : Position)
    (visited : List Position) (pos : Position)
    (acc : List Position × (Nat → Nat → BoardCell))
    (hpos : posOk pos) (hb : FlagsOk acc.2) :
    FlagsOk (neighborLeft popped top visited pos acc).2 ∧
    ∀ q ∈ (neighborLeft popped top visited pos acc).1,
      q ∈ acc.1 ∨ (posOk q ∧ q ∉ visited) := by
  have hG : GEN_SIZE = 13 := rfl
  obtain ⟨hpx, hpy⟩ := hpos
  unfold neighborLeft
  by_cases h1 : 0 < pos.x
  · simp only [if_pos h1]
    by_cases h2 : ({ x := pos.x - 1, y := pos.y } : Position) ∉ visited
    · simp only [if_pos h2]
      refine ⟨hb, ?_⟩
      intro q hq
      rcases List.mem_append.mp hq with hq | hq
      · exact Or.inl hq
      · rw [List.mem_singleton] at hq
        subst hq
        exact Or.inr ⟨⟨by simp; omega, hpy⟩, h2⟩
    · simp only [if_neg h2]
      by_cases h3 : popped = false ∧ top ≠ ({ x := pos.x - 1, y := pos.y } : Position)
      · simp only [if_pos h3]
        refine ⟨?_, fun q hq => Or.inl hq⟩
        exact flagsOk_setRight acc.2 _ _ hb (by simp; omega)
      · simp only [if_neg h3]
        exact ⟨hb, fun q hq => Or.inl hq⟩
  · simp only [if_neg h1]
    exact ⟨hb, fun q hq => Or.inl hq⟩

lemma neighborDown_spec (popped : Bool) (top : Position)
    (visited : List Position) (pos : Position)
    (acc : List Position × (Nat → Nat → BoardCell))
    (hpos : posOk pos) (hb : FlagsOk acc.2) :
    FlagsOk (neighborDown popped top visited pos acc).2 ∧
    ∀ q ∈ (neighborDown popped top visited pos acc).1,
      q ∈ acc.1 ∨ (posOk q ∧ q ∉ visited) := by
  have hG : GEN_SIZE = 13 := rfl
  obtain ⟨hpx, hpy⟩ := hpos
  unfold neighborDown
  by_cases h1 : pos.y < GEN_SIZE - 1
  · simp only [if_pos h1]
    by_cases h2 : ({ x := pos.x, y := pos.y + 1 } : Position) ∉ visited
    · simp only [if_pos h2]
      refine ⟨hb, ?_⟩
      intro q hq
      rcases List.mem_append.mp hq with hq | hq
      · exact Or.inl hq
      · rw [List.mem_singleton] at hq
        subst hq
        exact Or.inr ⟨⟨hpx, by simp; omega⟩, h2⟩
    · simp only [if_neg h2]
      by_cases h3 : popped = false ∧ top ≠ ({ x := pos.x, y := pos.y + 1 } : Position)
      · simp only [if_pos h3]
        refine ⟨?_, fun q hq => Or.inl hq⟩
        exact flagsOk_setBottom acc.2 _ _ hb (by omega)
      · simp only [if_neg h3]
        exact ⟨hb, fun q hq => Or.inl hq⟩
  · simp only [if_neg h1]
    exact ⟨hb, fun q hq => Or.inl hq⟩

lemma neighborRight_spec (popped : Bool) (top : Position)
    (visited : List Position) (pos : Position)
    (acc : List Position × (Nat → Nat → BoardCell))
    (hpos : posOk pos) (hb : FlagsOk acc.2) :
    FlagsOk (neighborRight popped top visited pos acc).2 ∧
    ∀ q ∈ (neighborRight popped top visited pos acc).1,
      q ∈ acc.1 ∨ (posOk q ∧ q ∉ visited) := by
  have hG : GEN_SIZE = 13 := rfl
  obtain ⟨hpx, hpy⟩ := hpos
  unfold neighborRight
  by_cases h1 : pos.x < GEN_SIZE - 1
  · simp only [if_pos h1]
    by_cases h2 : ({ x := pos.x + 1, y := pos.y } : Position) ∉ visited
    · simp only [if_pos h2]
      refine ⟨hb, ?_⟩
      intro q hq
      rcases List.mem_append.mp hq with hq | hq
      · exact Or.inl hq
      · rw [List.mem_singleton] at hq
        subst hq
        exact Or.inr ⟨⟨by simp; omega, hpy⟩, h2⟩
    · simp only [if_neg h2]
      by_cases h3 : popped = false ∧ top ≠ ({ x := pos.x + 1, y := pos.y } : Position)
      · simp only [if_pos h3]
        refine ⟨?_, fun q hq => Or.inl hq⟩
        exact flagsOk_setRight acc.2 _ _ hb (by omega)
      · simp only [if_neg h3]
        exact ⟨hb, fun q hq => Or.inl hq⟩
  · simp only [if_neg h1]
    exact ⟨hb, fun q hq => Or.inl hq⟩

lemma genAcc_spec (s : GenState) (h : GenInv s) :
    FlagsOk (genAcc s).2 ∧
    ∀ q ∈ (genAcc s).1, posOk q ∧ q ∉ insertPos s.visited s.pos := by
  obtain ⟨hpos, hstack, hflags⟩ := h
  unfold genAcc
  have h1 := neighborUp_spec s.popped (s.stack.headD { x := 0, y := 0 })
    (insertPos s.visited s.pos) s.pos ([], s.board) hpos hflags
  have h2 := neighborLeft_spec s.popped (s.stack.headD { x := 0, y := 0 })
    (insertPos s.visited s.pos) s.pos _ hpos h1.1
  have h3 := neighborDown_spec s.popped (s.stack.headD { x := 0, y := 0 })
    (insertPos s.visited s.pos) s.pos _ hpos h2.1
  have h4 := neighborRight_spec s.popped (s.stack.headD { x := 0, y := 0 })
    (insertPos s.visited s.pos) s.pos _ hpos h3.1
  refine ⟨h4.1, ?_⟩
  intro q hq
  rcases h4.2 q hq with hq | hq
  · rcases h3.2 q hq with hq | hq
    · rcases h2.2 q hq with hq | hq
      · rcases h1.2 q hq with hq | hq
        · simp at hq
        · exact hq
      · exact hq
    · exact hq
  · exact hq

lemma genBody_genInv (choice : Nat → Nat) (s : GenState) (h : GenInv s) :
    GenInv (genBody choice s) := by
  have hms := genAcc_spec s h
  obtain ⟨hpos, hstack, hflags⟩ := h
  simp only [genBody]
  split
  · refine ⟨(hms.2 _ (List.get_mem _ _ _)).1, ?_, hms.1⟩
    intro q hq
    rcases List.mem_cons.mp hq with hq | hq
    · rw [hq]
      exact hpos
    · exact hstack q hq
  · rcases hstk : s.stack with _ | ⟨t, rest⟩ <;> rw [hstk] at hstack
    · exact ⟨hpos, by simp, hms.1⟩
    · refine ⟨hstack t (List.mem_cons_self t rest), ?_, hms.1⟩
      intro q hq
      exact hstack q (List.mem_cons_of_mem t hq)

lemma genLoop_genInv (choice : Nat → Nat) (n : Nat) (s : GenState)
    (h : GenInv s) : GenInv (genLoop choice n s) := by
  induction n generalizing s with
  | zero => exact h
  | succ n ih =>
    show GenInv (if genGuard s then genLoop choice n (genBody choice s) else s)
    by_cases hg : genGuard s
    · rw [if_pos hg]
      exact ih _ (genBody_genInv choice s h)
    · rw [if_neg hg]
      exact h

lemma initGenState_genInv : GenInv initGenState := by
  refine ⟨by decide, ?_, fun y => rfl, fun x => rfl⟩
  intro q hq
  rw [show initGenState.stack = [{ x := GEN_SIZE / 2, y := GEN_SIZE / 2 }] from rfl,
    List.mem_singleton] at hq
  rw [hq]
  decide

lemma runGen_flagsOk (choice : Nat → Nat) : FlagsOk (runGen choice).board :=
  (genLoop_genInv choice GEN_FUEL initGenState initGenState_genInv).2.2

lemma generate_maze_char (choice : Nat → Nat) :
    ∃ rb, generate_maze choice = some rb ∧
      ∀ r, r < BOARD_SIZE → ∀ c, c < BOARD_SIZE →
        rb r c = specCell (runGen choice).board r c :=
  expandBoard_char (runGen choice).board
    ((runGen_flagsOk choice).1 (GEN_SIZE - 1))

end GenerationLemmas

/-- C10: after the traversal, no cell of the last logical column has its
`wall_right` flag set and no cell of the last logical row has its
`wall_bottom` flag set; consequently every write of the expansion stays
within the display grid's bounds, so the expansion succeeds (it would be
`none` — a Rust panic — on any out-of-bounds index). -/
theorem generate_flags_safe (choice : Nat → Nat) :
    (∀ y, ((runGen choice).board y (GEN_SIZE - 1)).wall_right = false) ∧
    (∀ x, ((runGen choice).board (GEN_SIZE - 1) x).wall_bottom = false) ∧
    ∃ rb, generate_maze choice = some rb := by
  obtain ⟨rb, hrb, -⟩ := generate_maze_char choice
  exact ⟨(runGen_flagsOk choice).1, (runGen_flagsOk choice).2, rb, hrb⟩

set_option maxRecDepth 20000 in
/-- C5 (code bug): a traversal state in which every cell of the
generation grid is visited, yet the loop guard still holds (its
visited-count bound is `BOARD_SIZE^2 = 625`, unreachable with only
`GEN_SIZE^2 = 169` logical cells) and the loop body executes one more
iteration (the stack is popped).  The claim says the loop terminates as
soon as every cell has been visited. -/
theorem loop_continues_after_all_visited :
    (∀ y, y < GEN_SIZE → ∀ x, x < GEN_SIZE →
      ({ x := x, y := y } : Position) ∈ fullVisitState.visited) ∧
    genGuard fullVisitState ∧
    (genLoop (fun _ => 0) 1 fullVisitState).stack = [] := by
  refine ⟨by decide, by decide, by decide⟩

/-- C8: `new()` builds a state whose grid is a freshly generated maze
with the player marker stamped at the origin (0,0) and the goal marker at
the opposite corner, whose stored positions are (0,0) and the corner, and
whose victory flag is false. -/
theorem new_spec (choice : Nat → Nat) :
    ∃ rb st, generate_maze choice = some rb ∧
      GameState.new choice = some st ∧
      st.position = { x := 0, y := 0 } ∧
      st.win_position = { x := BOARD_SIZE - 1, y := BOARD_SIZE - 1 } ∧
      st.victory = false ∧
      ∀ y x, st.board y x =
        if y = BOARD_SIZE - 1 ∧ x = BOARD_SIZE - 1 then GOAL
        else if y = 0 ∧ x = 0 then SYMBOL
        else rb y x := by
  obtain ⟨rb, hrb, -⟩ := generate_maze_char choice
  have hnew : GameState.new choice = some
      { board := setCell (setCell rb 0 0 SYMBOL)
          (BOARD_SIZE - 1) (BOARD_SIZE - 1) GOAL,
        position := { x := 0, y := 0 },
        win_position := { x := BOARD_SIZE - 1, y := BOARD_SIZE - 1 },
        victory := false } := by
    rw [GameState.new, hrb]
    rfl
  exact ⟨rb, _, hrb, hnew, rfl, rfl, rfl, fun y x => rfl⟩

section InvariantLemmas

lemma candidate_bounds (a : Movement) (p : Position)
    (hx : p.x < BOARD_SIZE) (hy : p.y < BOARD_SIZE) :
    (candidate a p).x < BOARD_SIZE ∧ (candidate a p).y < BOARD_SIZE := by
  rw [candidate_eq_spec_destination a p hx hy]
  have hB : BOARD_SIZE = 25 := rfl
  cases a <;> simp [spec_destination] <;> omega

lemma fullInv_move (s : GameState) (a : Movement) (h : FullInv s) :
    FullInv (move_position s a) := by
  obtain ⟨hpx, hpy, hwx, hwy, hvic, hcells⟩ := h
  by_cases hvalid : is_valid_move s (candidate a s.position)
  · rw [move_position_of_valid s a hvalid]
    have hnb := candidate_bounds a s.position hpx hpy
    have hposne : s.position ≠ s.win_position := by
      intro he
      have hv := hvic.mpr he
      rw [hvalid.1] at hv
      simp at hv
    have hvic2 : (applyMove s (candidate a s.position)).victory = true ↔
        candidate a s.position = s.win_position := by
      rw [applyMove_victory]
      simp [hvalid.1]
    refine ⟨?_, ?_, ?_, ?_, ?_, ?_⟩
    · rw [applyMove_position]
      exact hnb.1
    · rw [applyMove_position]
      exact hnb.2
    · rw [applyMove_win_position]
      exact hwx
    · rw [applyMove_win_position]
      exact hwy
    · rw [applyMove_position, applyMove_win_position]
      exact hvic2
    · intro y hy x hx
      rw [applyMove_board, applyMove_position, applyMove_win_position]
      set np := candidate a s.position with hnp
      by_cases hc1 : y = np.y ∧ x = np.x
      · have hbv : moveBoard s np y x = SYMBOL := by
          rw [hc1.1, hc1.2]
          unfold moveBoard
          exact setCell_same _ _ _ _
        rw [hbv]
        refine ⟨by simp [hc1.1, hc1.2], ?_, ?_⟩
        · intro hg
          exact absurd hg (by decide)
        · rintro ⟨hw, hne⟩
          refine absurd (Position.ext ?_ ?_) hne
          · omega
          · omega
      · by_cases hc2 : y = s.position.y ∧ x = s.position.x
        · have hbv : moveBoard s np y x = ' ' := by
            unfold moveBoard
            rw [setCell_other _ _ _ _ _ _ hc1, hc2.1, hc2.2, setCell_same]
          rw [hbv]
          refine ⟨⟨?_, ?_⟩, ?_, ?_⟩
          · intro hq
            exact absurd hq (by decide)
          · intro hq
            exact absurd hq hc1
          · intro hq
            exact absurd hq (by decide)
          · rintro ⟨hw, -⟩
            refine absurd (Position.ext ?_ ?_) hposne
            · omega
            · omega
        · have hbv : moveBoard s np y x = s.board y x := by
            unfold moveBoard
            rw [setCell_other _ _ _ _ _ _ hc1, setCell_other _ _ _ _ _ _ hc2]
          rw [hbv]
          have hold := hcells y hy x hx
          refine ⟨⟨?_, ?_⟩, ?_⟩
          · intro hq
            exact absurd (hold.1.mp hq) hc2
          · intro hq
            exact absurd hq hc1
          · rw [hold.2]
            constructor
            · rintro ⟨hw, -⟩
              refine ⟨hw, ?_⟩
              intro hnpw
              apply hc1
              have hny : np.y = s.win_position.y := by rw [hnpw]
              have hnx : np.x = s.win_position.x := by rw [hnpw]
              exact ⟨by omega, by omega⟩
            · rintro ⟨hw, -⟩
              exact ⟨hw, hposne⟩
  · rw [move_position_of_not_valid s a hvalid]
    exact ⟨hpx, hpy, hwx, hwy, hvic, hcells⟩

lemma fullInv_applyMoves (s : GameState) (ms : List Movement)
    (h : FullInv s) : FullInv (applyMoves s ms) := by
  induction ms generalizing s with
  | nil => exact h
  | cons m rest ih => exact ih _ (fullInv_move s m h)

lemma specCell_cases (grid : Nat → Nat → BoardCell) (r c : Nat) :
    specCell grid r c = WALL ∨ specCell grid r c = ' ' := by
  unfold specCell
  split_ifs <;> simp

lemma new_eq (choice : Nat → Nat) :
    ∃ rb, generate_maze choice = some rb ∧
      GameState.new choice = some
        { board := setCell (setCell rb 0 0 SYMBOL)
            (BOARD_SIZE - 1) (BOARD_SIZE - 1) GOAL,
          position := { x := 0, y := 0 },
          win_position := { x := BOARD_SIZE - 1, y := BOARD_SIZE - 1 },
          victory := false } := by
  obtain ⟨rb, hrb, -⟩ := generate_maze_char choice
  refine ⟨rb, hrb, ?_⟩
  rw [GameState.new, hrb]
  rfl

lemma fullInv_new (choice : Nat → Nat) (st : GameState)
    (hst : GameState.new choice = some st) : FullInv st := by
  have hB : BOARD_SIZE = 25 := rfl
  obtain ⟨rb, hrb, hchar⟩ := generate_maze_char choice
  have hmazeval : ∀ y, y < BOARD_SIZE → ∀ x, x < BOARD_SIZE →
      rb y x ≠ SYMBOL ∧ rb y x ≠ GOAL := by
    intro y hy x hx
    rcases specCell_cases (runGen choice).board y x with hc | hc <;>
      rw [hchar y hy x hx, hc] <;> exact ⟨by decide, by decide⟩
  obtain ⟨rb2, hrb2, hnew⟩ := new_eq choice
  rw [hrb] at hrb2
  have hrbeq : rb = rb2 := Option.some.inj hrb2
  subst hrbeq
  rw [hst] at hnew
  have hsteq := Option.some.inj hnew
  subst hsteq
  refine ⟨by dsimp only; decide, by dsimp only; decide, by dsimp only; decide,
    by dsimp only; decide, by dsimp only; decide, ?_⟩
  intro y hy x hx
  dsimp only
  by_cases h24 : y = BOARD_SIZE - 1 ∧ x = BOARD_SIZE - 1
  · have hbv : setCell (setCell rb 0 0 SYMBOL)
        (BOARD_SIZE - 1) (BOARD_SIZE - 1) GOAL y x = GOAL := by
      rw [h24.1, h24.2]
      exact setCell_same _ _ _ _
    rw [hbv]
    refine ⟨⟨?_, ?_⟩, ?_, ?_⟩
    · intro hq
      exact absurd hq (by decide)
    · rintro ⟨rfl, rfl⟩
      omega
    · intro hq
      exact ⟨⟨h24.1, h24.2⟩, by decide⟩
    · intro hq
      rfl
  · have hbv1 : setCell (setCell rb 0 0 SYMBOL)
        (BOARD_SIZE - 1) (BOARD_SIZE - 1) GOAL y x =
        setCell rb 0 0 SYMBOL y x := setCell_other _ _ _ _ _ _ h24
    rw [hbv1]
    by_cases h00 : y = 0 ∧ x = 0
    · have hbv2 : setCell rb 0 0 SYMBOL y x = SYMBOL := by
        rw [h00.1, h00.2]
        exact setCell_same _ _ _ _
      rw [hbv2]
      refine ⟨⟨?_, ?_⟩, ?_, ?_⟩
      · intro hq
        exact ⟨h00.1, h00.2⟩
      · intro hq
        rfl
      · intro hq
        exact absurd hq (by decide)
      · rintro ⟨hw, -⟩
        exact absurd ⟨hw.1, hw.2⟩ h24
    · have hbv2 : setCell rb 0 0 SYMBOL y x = rb y x :=
        setCell_other _ _ _ _ _ _ h00
      rw [hbv2]
      have hmz := hmazeval y hy x hx
      refine ⟨⟨?_, ?_⟩, ?_, ?_⟩
      · intro hq
        exact absurd hq hmz.1
      · intro hq
        exact absurd ⟨hq.1, hq.2⟩ h00
      · intro hq
        exact absurd hq hmz.2
      · rintro ⟨hw, -⟩
        exact absurd ⟨hw.1, hw.2⟩ h24

lemma fullInv_symbolCount (s : GameState) (h : FullInv s) :
    symbolCount s.board = 1 := by
  obtain ⟨hpx, hpy, -, -, -, hcells⟩ := h
  unfold symbolCount
  rw [Finset.card_eq_one]
  refine ⟨(s.position.y, s.position.x), ?_⟩
  ext q
  obtain ⟨qy, qx⟩ := q
  simp only [Finset.mem_filter, Finset.mem_product, Finset.mem_range,
    Finset.mem_singleton, Prod.mk.injEq]
  constructor
  · rintro ⟨⟨h1, h2⟩, h3⟩
    have hq := (hcells qy h1 qx h2).1.mp h3
    exact ⟨hq.1, hq.2⟩
  · rintro ⟨rfl, rfl⟩
    exact ⟨⟨hpy, hpx⟩, (hcells _ hpy _ hpx).1.mpr ⟨rfl, rfl⟩⟩

lemma fullInv_goalCount (s : GameState) (h : FullInv s) :
    goalCount s.board = if s.position = s.win_position then 0 else 1 := by
  obtain ⟨-, -, hwx, hwy, -, hcells⟩ := h
  unfold goalCount
  by_cases hpw : s.position = s.win_position
  · rw [if_pos hpw, Finset.card_eq_zero]
    ext q
    obtain ⟨qy, qx⟩ := q
    simp only [Finset.mem_filter, Finset.mem_product, Finset.mem_range,
      Finset.not_mem_empty, iff_false, not_and]
    rintro ⟨h1, h2⟩ h3
    exact ((hcells qy h1 qx h2).2.mp h3).2 hpw
  · rw [if_neg hpw, Finset.card_eq_one]
    refine ⟨(s.win_position.y, s.win_position.x), ?_⟩
    ext q
    obtain ⟨qy, qx⟩ := q
    simp only [Finset.mem_filter, Finset.mem_product, Finset.mem_range,
      Finset.mem_singleton, Prod.mk.injEq]
    constructor
    · rintro ⟨⟨h1, h2⟩, h3⟩
      have hq := (hcells qy h1 qx h2).2.mp h3
      exact ⟨hq.1.1, hq.1.2⟩
    · rintro ⟨rfl, rfl⟩
      exact ⟨⟨hwy, hwx⟩, (hcells _ hwy _ hwx).2.mpr ⟨⟨rfl, rfl⟩, hpw⟩⟩

end InvariantLemmas

/-- C4: in the state built by `new()` and after any sequence of moves,
exactly one display cell holds the player marker, and exactly one holds
the goal marker unless the player sits on the goal, in which case the
player marker has overwritten it (goal-marker count zero). -/
theorem marker_invariant (choice : Nat → Nat) (ms : List Movement) :
    ∃ st, GameState.new choice = some st ∧
      symbolCount (applyMoves st ms).board = 1 ∧
      goalCount (applyMoves st ms).board =
        (if (applyMoves st ms).position = (applyMoves st ms).win_position
          then 0 else 1) := by
  obtain ⟨rb, hrb, hnew⟩ := new_eq choice
  have hinv := fullInv_applyMoves _ ms (fullInv_new choice _ hnew)
  exact ⟨_, hnew, fullInv_symbolCount _ hinv, fullInv_goalCount _ hinv⟩

section TerminationLemmas

lemma mem_insertPos (v : List Position) (p q : Position) :
    q ∈ insertPos v p ↔ q = p ∨ q ∈ v := by
  unfold insertPos
  by_cases h : p ∈ v
  · rw [if_pos h]
    constructor
    · exact Or.inr
    · rintro (rfl | hq)
      · exact h
      · exact hq
  · rw [if_neg h]
    exact List.mem_cons

lemma mem_uvSet (s : GenState) (q : Nat × Nat) :
    q ∈ uvSet s ↔ (q.1 < GEN_SIZE ∧ q.2 < GEN_SIZE) ∧
      toPos q ∉ s.visited ∧ toPos q ≠ s.pos := by
  unfold uvSet
  rw [Finset.mem_filter, Finset.mem_product, Finset.mem_range, Finset.mem_range]

lemma measureGen_forward (s s2 : GenState)
    (hv : s2.visited = insertPos s.visited s.pos)
    (hst : s2.stack.length = s.stack.length + 1)
    (hok : posOk s2.pos) (hnv : s2.pos ∉ insertPos s.visited s.pos) :
    measureGen s2 < measureGen s := by
  have hsub : uvSet s2 ⊆ (uvSet s).erase (s2.pos.y, s2.pos.x) := by
    intro q hq
    rw [mem_uvSet] at hq
    obtain ⟨hqr, hqv, hqp⟩ := hq
    rw [hv, mem_insertPos] at hqv
    push_neg at hqv
    rw [Finset.mem_erase, mem_uvSet]
    refine ⟨?_, hqr, hqv.2, hqv.1⟩
    intro hqe
    apply hqp
    rw [hqe]
    rfl
  have hmem : (s2.pos.y, s2.pos.x) ∈ uvSet s := by
    rw [mem_uvSet]
    refine ⟨⟨hok.2, hok.1⟩, ?_, ?_⟩
    · intro hvv
      exact hnv ((mem_insertPos _ _ _).mpr (Or.inr hvv))
    · intro hp
      exact hnv ((mem_insertPos _ _ _).mpr (Or.inl hp))
  have hcard := Finset.card_le_card hsub
  rw [Finset.card_erase_of_mem hmem] at hcard
  have hpos2 : 0 < (uvSet s).card := Finset.card_pos.mpr ⟨_, hmem⟩
  unfold measureGen
  omega

lemma measureGen_pop (s s2 : GenState)
    (hv : s2.visited = insertPos s.visited s.pos)
    (hst : s2.stack.length + 1 = s.stack.length) :
    measureGen s2 < measureGen s := by
  have hsub : uvSet s2 ⊆ uvSet s := by
    intro q hq
    rw [mem_uvSet] at hq
    obtain ⟨hqr, hqv, -⟩ := hq
    rw [hv, mem_insertPos] at hqv
    push_neg at hqv
    rw [mem_uvSet]
    exact ⟨hqr, hqv.2, hqv.1⟩
  have hcard := Finset.card_le_card hsub
  unfold measureGen
  omega

lemma genBody_measure (choice : Nat → Nat) (s : GenState)
    (hg : genGuard s) (hinv : GenInv s) :
    measureGen (genBody choice s) < measureGen s := by
  have hms := genAcc_spec s hinv
  unfold genBody
  split
  case isTrue h =>
    have hchm : (genAcc s).1.get
        ⟨choice s.step % (genAcc s).1.length, Nat.mod_lt _ h⟩ ∈ (genAcc s).1 :=
      List.get_mem _ _ _
    obtain ⟨hchok, hchnv⟩ := hms.2 _ hchm
    exact measureGen_forward s _ rfl (by simp) hchok hchnv
  case isFalse h =>
    rcases hstk : s.stack with _ | ⟨t, rest⟩
    · have h1 : 0 < s.stack.length := hg.1
      rw [hstk] at h1
      simp at h1
    · refine measureGen_pop s _ rfl ?_
      rw [hstk]
      simp

lemma genLoop_halts (choice : Nat → Nat) (n : Nat) (s : GenState)
    (hinv : GenInv s) (hm : measureGen s ≤ n) :
    ¬ genGuard (genLoop choice n s) := by
  induction n generalizing s with
  | zero =>
    intro hg
    have h1 : 0 < s.stack.length := hg.1
    unfold measureGen at hm
    omega
  | succ n ih =>
    show ¬ genGuard (if genGuard s then genLoop choice n (genBody choice s) else s)
    by_cases hg : genGuard s
    · rw [if_pos hg]
      refine ih (genBody choice s) (genBody_genInv choice s hinv) ?_
      have := genBody_measure choice s hg hinv
      omega
    · rw [if_neg hg]
      exact hg

/-- `GEN_FUEL` is enough fuel: at `runGen` the loop guard is false, i.e.
`runGen` is the state in which the source's `while` loop actually exits
(the measure `2*|unvisited| + |stack|` starts at 337 ≤ 400 and strictly
decreases at every guarded iteration). -/
lemma runGen_halts (choice : Nat → Nat) : ¬ genGuard (runGen choice) := by
  apply genLoop_halts choice GEN_FUEL initGenState initGenState_genInv
  have hsub : uvSet initGenState ⊆
      Finset.range GEN_SIZE ×ˢ Finset.range GEN_SIZE :=
    Finset.filter_subset _ _
  have hcard := Finset.card_le_card hsub
  rw [Finset.card_product, Finset.card_range] at hcard
  have hG : GEN_SIZE = 13 := rfl
  rw [hG] at hcard
  have hlen : initGenState.stack.length = 1 := rfl
  have hF : GEN_FUEL = 400 := rfl
  unfold measureGen
  omega

end TerminationLemmas
